import Mathlib

/-!
Verification of the mechanical-power ICU calculator (`mp_calc.py`,
`streamlit_app.py`).  Real-valued quantities are modelled as rationals;
Python `None` becomes `Option`, Python exceptions become `Except`.
-/

namespace MPICU

/-- Python's `str.upper()` (ASCII case mapping, which is all the source's
mode and move labels need). -/
def pyUpper (s : String) : String := String.mk (s.data.map Char.toUpper)

/-- Python's `str.lower()`. -/
def pyLower (s : String) : String := String.mk (s.data.map Char.toLower)

/-- Python's `str.strip()`: whitespace removed from both ends. -/
def pyStrip (s : String) : String :=
  String.mk (((s.data.dropWhile Char.isWhitespace).reverse.dropWhile Char.isWhitespace).reverse)

/-- Python's `str.startswith(pre)`. -/
def pyStarts (s pre : String) : Bool := List.isPrefixOf pre.data s.data

/-- Energy conversion constant `K = 0.098` from `mp_calc.py`. -/
def K : ℚ := 98 / 1000

/-- Default guardrails from `mp_calc.py`. -/
def DEFAULT_VT_MIN : ℚ := 4

def DEFAULT_VT_MAX : ℚ := 8

def DEFAULT_RR_MIN : ℚ := 8

def DEFAULT_RR_MAX : ℚ := 35

def DEFAULT_PEEP_MIN : ℚ := 5

def DEFAULT_PEEP_MAX : ℚ := 40

/-- `pbw_kg` from `mp_calc.py`: Devine predicted body weight, height in cm
converted to inches.  `sex` is lower-cased and any sex word starting with
"m" counts as male. -/
def pbw_kg (sex : String) (height_cm : ℚ) : ℚ :=
  let s := pyLower (pyStrip sex)
  let h_in := height_cm / (254 / 100)
  if pyStarts s "m" then 50 + (23 / 10) * (h_in - 60)
  else 455 / 10 + (23 / 10) * (h_in - 60)

/-- The `MPInputs` dataclass from `mp_calc.py`. -/
structure MPInputs where
  mode : String
  rr_bpm : ℚ
  vt_ml : ℚ
  peep : ℚ
  pplat : Option ℚ := none
  ppeak : Option ℚ := none
  cstat_L_per_cmH2O : Option ℚ := none
  delta_pinsp : Option ℚ := none
  pip : Option ℚ := none
  sex : Option String := none
  height_cm : Option ℚ := none
deriving DecidableEq, Inhabited

/-- The distinct `ValueError` raise sites of `mp_calc.py`. -/
inductive VentError where
  | vcNeedsPplat
  | pcNeedsDeltaPinsp
  | badMode
  | deltaMoveImpossible
  | unknownMove
deriving DecidableEq

/-- Result of `vc_mp_simplified`: the mechanical power together with the
pressures actually used and which of the `est` fallback notes fired. -/
structure VCResult where
  mp : ℚ
  pplat_used : ℚ
  ppeak_used : ℚ
  pplat_from_cstat : Bool
  ppeak_from_pplat_plus5 : Bool
deriving DecidableEq

/-- `vc_mp_simplified` from `mp_calc.py`.  The Pplat fallback fires when
`pplat is None and cstat not in (None, 0)` (note: any nonzero cstat,
including negative ones); afterwards a missing `ppeak` becomes
`pplat + 5`. -/
def vc_mp_simplified (rr_bpm vt_ml peep : ℚ)
    (pplat ppeak cstat_L_per_cmH2O : Option ℚ) : Except VentError VCResult :=
  let vt_L := vt_ml / 1000
  let pc : Option ℚ × Bool :=
    match pplat, cstat_L_per_cmH2O with
    | none, some c => if c = 0 then (none, false) else (some (vt_L / c + peep), true)
    | p, _ => (p, false)
  match pc with
  | (none, _) => .error .vcNeedsPplat
  | (some pl, fromC) =>
    match ppeak with
    | none =>
      let pk := pl + 5
      .ok ⟨K * rr_bpm * vt_L * (pk - (1 / 2) * (pl - peep)), pl, pk, fromC, true⟩
    | some pk =>
      .ok ⟨K * rr_bpm * vt_L * (pk - (1 / 2) * (pl - peep)), pl, pk, fromC, false⟩

/-- Result of `pc_mp_simplified`. -/
structure PCResult where
  mp : ℚ
  delta_pinsp_used : ℚ
  delta_pinsp_from_pip : Bool
deriving DecidableEq

/-- `pc_mp_simplified` from `mp_calc.py`: `MP = K·RR·VT_L·(PEEP + ΔPinsp)`,
with `ΔPinsp = PIP − PEEP` as fallback when only a PIP is known. -/
def pc_mp_simplified (rr_bpm vt_ml peep : ℚ)
    (delta_pinsp pip : Option ℚ) : Except VentError PCResult :=
  let vt_L := vt_ml / 1000
  let dc : Option ℚ × Bool :=
    match delta_pinsp, pip with
    | none, some p => (some (p - peep), true)
    | d, _ => (d, false)
  match dc with
  | (none, _) => .error .pcNeedsDeltaPinsp
  | (some d, fromP) => .ok ⟨K * rr_bpm * vt_L * (peep + d), d, fromP⟩

/-- `compute_mp` from `mp_calc.py`: mode dispatch on the stripped,
upper-cased mode string.  Only the power value is propagated. -/
def compute_mp (inp : MPInputs) : Except VentError ℚ :=
  let mode := pyUpper (pyStrip inp.mode)
  if mode = "VC" then
    (vc_mp_simplified inp.rr_bpm inp.vt_ml inp.peep
      inp.pplat inp.ppeak inp.cstat_L_per_cmH2O).map (fun r => r.mp)
  else if mode = "PC" ∨ mode = "PRVC" then
    (pc_mp_simplified inp.rr_bpm inp.vt_ml inp.peep
      inp.delta_pinsp inp.pip).map (fun r => r.mp)
  else .error .badMode

/-- `candidate_moves` from `mp_calc.py`.  Python truthiness of
`inp.sex and inp.height_cm` is: `sex` present and nonempty, `height_cm`
present and nonzero.  The VT floor test is `vt_ml - 50 <= 150`, so the
move survives only for a resulting VT strictly above 150 mL. -/
def candidate_moves (inp : MPInputs) : List String :=
  let mode := pyUpper inp.mode
  let base :=
    (if DEFAULT_RR_MIN ≤ inp.rr_bpm - 2 then ["RR -2"] else []) ++
    (if DEFAULT_PEEP_MIN ≤ inp.peep - 1 then ["PEEP -1"] else [])
  if mode = "VC" then
    let okPbw : Bool :=
      match inp.sex, inp.height_cm with
      | some s, some h =>
        if s = "" ∨ h = 0 then true
        else if 0 < pbw_kg s h ∧ (inp.vt_ml - 50) / pbw_kg s h < DEFAULT_VT_MIN then false
        else true
      | _, _ => true
    let ok : Bool := if inp.vt_ml - 50 ≤ 150 then false else okPbw
    base ++ (if ok then ["VT -50"] else [])
  else
    let dpin : Option ℚ :=
      match inp.delta_pinsp, inp.pip with
      | some d, _ => some d
      | none, some p => some (p - inp.peep)
      | none, none => none
    base ++
      (match dpin with
       | some d => if 0 ≤ d - 2 then ["ΔPinsp -2"] else []
       | none => [])

/-- `apply_move` from `mp_calc.py`: build a fresh copy of the inputs with
one field changed (clamped at its floor), recompute MP on the copy, and
return both.  Unknown labels and an impossible ΔPinsp move raise. -/
def apply_move (inp : MPInputs) (move : String) : Except VentError (ℚ × MPInputs) :=
  if move = "RR -2" then
    let j := { inp with rr_bpm := max DEFAULT_RR_MIN (inp.rr_bpm - 2) }
    (compute_mp j).map (fun mp => (mp, j))
  else if move = "PEEP -1" then
    let j := { inp with peep := max DEFAULT_PEEP_MIN (inp.peep - 1) }
    (compute_mp j).map (fun mp => (mp, j))
  else if move = "VT -50" then
    let j := { inp with vt_ml := max 0 (inp.vt_ml - 50) }
    (compute_mp j).map (fun mp => (mp, j))
  else if move = "ΔPinsp -2" then
    match inp.delta_pinsp with
    | some d =>
      let j := { inp with delta_pinsp := some (max 0 (d - 2)) }
      (compute_mp j).map (fun mp => (mp, j))
    | none =>
      match inp.pip with
      | some p =>
        let j := { inp with pip := some (max inp.peep (p - 2)) }
        (compute_mp j).map (fun mp => (mp, j))
      | none => .error .deltaMoveImpossible
  else .error .unknownMove

/-- The dict appended to `out` for each surviving candidate in
`rank_moves`. -/
structure RankedCand where
  move : String
  base_mp : ℚ
  new_mp : ℚ
  abs_drop : ℚ
  prior_abs_drop : Option ℚ
deriving DecidableEq

/-- The historical-priors JSON: mode → move label → `mean_abs_drop`. -/
def PriorsTable := List (String × List (String × ℚ))

/-- String-keyed association lookup, modelling Python dict indexing. -/
def lookupStr {α : Type} (k : String) : List (String × α) → Option α
  | [] => none
  | (a, v) :: rest => if a = k then some v else lookupStr k rest

/-- The priors lookup inside `rank_moves`: `priors[mode][m]["mean_abs_drop"]`
when both keys are present, else `None`.  (An absent or empty table yields
`None` either way, matching Python truthiness of `if priors:`.) -/
def lookupPrior (priors : Option PriorsTable) (mode move : String) : Option ℚ :=
  match priors with
  | none => none
  | some t =>
    match lookupStr mode t with
    | none => none
    | some sub => lookupStr move sub

/-- One iteration of the candidate loop in `rank_moves`: `apply_move`
failures are swallowed (`except Exception: continue`), successes append a
`RankedCand`.  The local `score` variable of the source (the prior-nudged
drop) is dead code: it is neither stored nor used by the sort. -/
def evalCandidate (inp : MPInputs) (priors : Option PriorsTable)
    (base_mp : ℚ) (m : String) : Option RankedCand :=
  match apply_move inp m with
  | .error _ => none
  | .ok (new_mp, _state) =>
    some { move := m, base_mp := base_mp, new_mp := new_mp,
           abs_drop := base_mp - new_mp,
           prior_abs_drop := lookupPrior priors (pyUpper inp.mode) m }

/-- Stable descending insertion by `abs_drop`: an element is placed before
the first entry whose drop is not larger, so equal drops keep their
original order. -/
def insertDesc (c : RankedCand) : List RankedCand → List RankedCand
  | [] => [c]
  | d :: ds => if d.abs_drop ≤ c.abs_drop then c :: d :: ds else d :: insertDesc c ds

/-- Model of Python's stable `out.sort(key=lambda r: r["abs_drop"],
reverse=True)`. -/
def sortDesc : List RankedCand → List RankedCand
  | [] => []
  | c :: cs => insertDesc c (sortDesc cs)

/-- The body of `rank_moves` after the baseline succeeds, parameterised by
the list of candidate labels it walks. -/
def rankFrom (inp : MPInputs) (priors : Option PriorsTable) (base_mp : ℚ)
    (ms : List String) : List RankedCand :=
  sortDesc (ms.filterMap (evalCandidate inp priors base_mp))

/-- `rank_moves` from `mp_calc.py`: the baseline `compute_mp` failure
propagates; each candidate is evaluated with failures dropped; the result
is sorted by `abs_drop` descending. -/
def rank_moves (inp : MPInputs) (priors : Option PriorsTable) :
    Except VentError (List RankedCand) :=
  match compute_mp inp with
  | .error e => .error e
  | .ok base_mp => .ok (rankFrom inp priors base_mp (candidate_moves inp))

/-- The commit block of `greedy_plan`: the same clamped field updates as
`apply_move`, performed on the working state.  `none` models the `break`
taken when a ΔPinsp move can no longer be committed; an unrecognised label
falls through every branch and leaves the state unchanged. -/
def greedyCommit (cur : MPInputs) (move : String) : Option MPInputs :=
  if move = "RR -2" then some { cur with rr_bpm := max DEFAULT_RR_MIN (cur.rr_bpm - 2) }
  else if move = "PEEP -1" then some { cur with peep := max DEFAULT_PEEP_MIN (cur.peep - 1) }
  else if move = "VT -50" then some { cur with vt_ml := max 0 (cur.vt_ml - 50) }
  else if move = "ΔPinsp -2" then
    match cur.delta_pinsp with
    | some d => some { cur with delta_pinsp := some (max 0 (d - 2)) }
    | none =>
      match cur.pip with
      | some p => some { cur with pip := some (max cur.peep (p - 2)) }
      | none => none
  else some cur

/-- The `for _ in range(steps)` loop of `greedy_plan`.  A baseline failure
inside `rank_moves` propagates (the source has no try/except here); an
empty ranking, a non-improving best move, or an uncommittable move ends
the plan. -/
def greedyLoop (priors : Option PriorsTable) : Nat → MPInputs → Except VentError (List RankedCand)
  | 0, _ => .ok []
  | n + 1, cur =>
    match rank_moves cur priors with
    | .error e => .error e
    | .ok [] => .ok []
    | .ok (best :: _) =>
      if best.abs_drop ≤ 0 then .ok []
      else
        match greedyCommit cur best.move with
        | none => .ok []
        | some cur2 =>
          match greedyLoop priors n cur2 with
          | .error e => .error e
          | .ok rest => .ok (best :: rest)

/-- `greedy_plan` from `mp_calc.py`.  The working copy
`cur = MPInputs(**vars(inp))` is a field-by-field copy, i.e. the same
value in this model. -/
def greedy_plan (inp : MPInputs) (priors : Option PriorsTable) (steps : Nat) :
    Except VentError (List RankedCand) :=
  greedyLoop priors steps inp

/-- The MP values read along a plan: the first step's baseline followed by
each committed step's resulting MP. -/
def mpSeq : List RankedCand → List ℚ
  | [] => []
  | c :: cs => c.base_mp :: (c :: cs).map (fun r => r.new_mp)

/-- Modelled from the spec: the tie-break `score` of §4.4 —
`absolute_drop` plus `1e-3 · mean_abs_drop` when a prior entry exists.
The source computes this value into a local variable but never uses it;
this definition exists to compare the spec's intended ordering with the
code's actual one. -/
def scoreOf (c : RankedCand) : ℚ :=
  c.abs_drop + (match c.prior_abs_drop with | some p => (1 / 1000) * p | none => 0)

/-- `mp_pc_prvc` from `streamlit_app.py`.  Float NaN results for missing
data are modelled as `none`.  Note the driving term is
`PEEP + 0.5·ΔP`, not `PEEP + ΔP`. -/
def mp_pc_prvc (RR VT_ml PEEP : ℚ) (Pplat PIP DeltaPinsp : Option ℚ) :
    Option ℚ × Option ℚ × Option ℚ :=
  let VT_L := VT_ml / 1000
  let dP : Option ℚ :=
    match DeltaPinsp with
    | some d => some (max d 0)
    | none =>
      match Pplat with
      | some pl => some (max (pl - PEEP) 0)
      | none =>
        match PIP with
        | some p => some (max (p - PEEP) 0)
        | none => none
  match dP with
  | none => (none, (Pplat <|> PIP), (PIP <|> Pplat))
  | some d =>
    let mp := K * RR * VT_L * (PEEP + (1 / 2) * d)
    let used_pplat :=
      match Pplat with
      | some pl => pl
      | none => match PIP with | some p => p | none => PEEP + d
    let used_pip := match PIP with | some p => p | none => used_pplat
    (some mp, some used_pplat, some used_pip)

/-- The VC power value on inputs where both pressures are supplied (the
always-successful branch of `vc_mp_simplified`). -/
def vcMP (rr vt peep pl pk : ℚ) : ℚ :=
  match vc_mp_simplified rr vt peep (some pl) (some pk) none with
  | .ok r => r.mp
  | .error _ => 0

/-!
Heap model for the mutation discipline of `apply_move`, `rank_moves` and
`greedy_plan`: `MPInputs` objects live in a store indexed by allocation
order, functions receive the caller's object by reference (an index), and
every Python field assignment is a store update at the index of the object
assigned to.  `MPInputs(**vars(x))` allocates a fresh copy at the end of
the store.
-/

/-- A store of allocated `MPInputs` objects; references are indices. -/
abbrev Heap := List MPInputs

/-- Heap-level `apply_move`: `j = MPInputs(**vars(inp))` allocates a copy
at the end of the store; the single field assignment writes to `j`'s cell;
`compute_mp(j)` reads it back.  The caller's cell `i` is never written. -/
def applyMoveH (h : Heap) (i : Nat) (move : String) : Heap × Except VentError (ℚ × Nat) :=
  let inp := h.getD i default
  let jloc := h.length
  let h1 := h ++ [inp]
  if move = "RR -2" then
    let h2 := h1.set jloc { inp with rr_bpm := max DEFAULT_RR_MIN (inp.rr_bpm - 2) }
    (h2, (compute_mp (h2.getD jloc default)).map (fun mp => (mp, jloc)))
  else if move = "PEEP -1" then
    let h2 := h1.set jloc { inp with peep := max DEFAULT_PEEP_MIN (inp.peep - 1) }
    (h2, (compute_mp (h2.getD jloc default)).map (fun mp => (mp, jloc)))
  else if move = "VT -50" then
    let h2 := h1.set jloc { inp with vt_ml := max 0 (inp.vt_ml - 50) }
    (h2, (compute_mp (h2.getD jloc default)).map (fun mp => (mp, jloc)))
  else if move = "ΔPinsp -2" then
    match inp.delta_pinsp with
    | some d =>
      let h2 := h1.set jloc { inp with delta_pinsp := some (max 0 (d - 2)) }
      (h2, (compute_mp (h2.getD jloc default)).map (fun mp => (mp, jloc)))
    | none =>
      match inp.pip with
      | some p =>
        let h2 := h1.set jloc { inp with pip := some (max inp.peep (p - 2)) }
        (h2, (compute_mp (h2.getD jloc default)).map (fun mp => (mp, jloc)))
      | none => (h1, .error .deltaMoveImpossible)
  else (h1, .error .unknownMove)

/-- One iteration of the candidate loop of `rank_moves`, at heap level. -/
def rankStepH (i : Nat) (priors : Option PriorsTable) (mode : String) (base_mp : ℚ)
    (acc : Heap × List RankedCand) (m : String) : Heap × List RankedCand :=
  match applyMoveH acc.1 i m with
  | (h2, .error _) => (h2, acc.2)
  | (h2, .ok (new_mp, _)) =>
    (h2, acc.2 ++ [{ move := m, base_mp := base_mp, new_mp := new_mp,
                     abs_drop := base_mp - new_mp,
                     prior_abs_drop := lookupPrior priors mode m }])

/-- Heap-level `rank_moves`: reads the setting at `i`, walks the candidate
loop threading the store through each `apply_move` allocation. -/
def rankMovesH (h : Heap) (i : Nat) (priors : Option PriorsTable) :
    Heap × Except VentError (List RankedCand) :=
  let inp := h.getD i default
  match compute_mp inp with
  | .error e => (h, .error e)
  | .ok base_mp =>
    let r := (candidate_moves inp).foldl (rankStepH i priors (pyUpper inp.mode) base_mp) (h, [])
    (r.1, .ok (sortDesc r.2))

/-- Heap-level loop of `greedy_plan`: the working copy lives at `curloc`
and each committed move writes that cell in place. -/
def greedyLoopH (priors : Option PriorsTable) : Nat → Heap → Nat → Heap × Except VentError (List RankedCand)
  | 0, h, _ => (h, .ok [])
  | n + 1, h, curloc =>
    match rankMovesH h curloc priors with
    | (h2, .error e) => (h2, .error e)
    | (h2, .ok []) => (h2, .ok [])
    | (h2, .ok (best :: _)) =>
      if best.abs_drop ≤ 0 then (h2, .ok [])
      else
        match greedyCommit (h2.getD curloc default) best.move with
        | none => (h2, .ok [])
        | some cur2 =>
          match greedyLoopH priors n (h2.set curloc cur2) curloc with
          | (h4, .error e) => (h4, .error e)
          | (h4, .ok rest) => (h4, .ok (best :: rest))

/-- Heap-level `greedy_plan`: `cur = MPInputs(**vars(inp))` allocates the
working copy at a fresh cell, then the loop mutates only that cell. -/
def greedyPlanH (h : Heap) (i : Nat) (priors : Option PriorsTable) (steps : Nat) :
    Heap × Except VentError (List RankedCand) :=
  let curloc := h.length
  let h1 := h ++ [h.getD i default]
  greedyLoopH priors steps h1 curloc

/-! Evaluated facts about the string literals of the source. -/

lemma strVCtrim : pyUpper (pyStrip "VC") = "VC" := by decide

lemma strPCtrim : pyUpper (pyStrip "PC") = "PC" := by decide

lemma strVCup : pyUpper "VC" = "VC" := by decide

lemma strPCup : pyUpper "PC" = "PC" := by decide

lemma strPCneVC : ("PC" : String) ≠ "VC" := by decide

lemma strRRnePE : ("RR -2" : String) ≠ "PEEP -1" := by decide

lemma strRRneVT : ("RR -2" : String) ≠ "VT -50" := by decide

lemma strRRneDP : ("RR -2" : String) ≠ "ΔPinsp -2" := by decide

lemma strPEneRR : ("PEEP -1" : String) ≠ "RR -2" := by decide

lemma strPEneVT : ("PEEP -1" : String) ≠ "VT -50" := by decide

lemma strPEneDP : ("PEEP -1" : String) ≠ "ΔPinsp -2" := by decide

lemma strVTneRR : ("VT -50" : String) ≠ "RR -2" := by decide

lemma strVTnePE : ("VT -50" : String) ≠ "PEEP -1" := by decide

lemma strVTneDP : ("VT -50" : String) ≠ "ΔPinsp -2" := by decide

lemma strDPneRR : ("ΔPinsp -2" : String) ≠ "RR -2" := by decide

lemma strDPnePE : ("ΔPinsp -2" : String) ≠ "PEEP -1" := by decide

lemma strDPneVT : ("ΔPinsp -2" : String) ≠ "VT -50" := by decide

lemma strXXneRR : ("XX" : String) ≠ "RR -2" := by decide

lemma strXXnePE : ("XX" : String) ≠ "PEEP -1" := by decide

lemma strXXneVT : ("XX" : String) ≠ "VT -50" := by decide

lemma strXXneDP : ("XX" : String) ≠ "ΔPinsp -2" := by decide

/-! Generic helper lemmas. -/

lemma except_map_ok {ε α β : Type} {e : Except ε α} {f : α → β} {b : β} :
    e.map f = .ok b ↔ ∃ a, e = .ok a ∧ f a = b := by
  cases e <;> simp [Except.map]

lemma mem_insertDesc {x c : RankedCand} {l : List RankedCand} :
    x ∈ insertDesc c l ↔ x = c ∨ x ∈ l := by
  induction l with
  | nil => simp [insertDesc]
  | cons d ds ih =>
    by_cases h : d.abs_drop ≤ c.abs_drop
    · simp [insertDesc, h]
    · simp [insertDesc, h, ih]
      tauto

lemma mem_sortDesc {x : RankedCand} {l : List RankedCand} :
    x ∈ sortDesc l ↔ x ∈ l := by
  induction l with
  | nil => simp [sortDesc]
  | cons c cs ih => simp [sortDesc, mem_insertDesc, ih]

/-- Every entry of a successful `rank_moves` records the baseline power,
its drop is baseline minus its own recomputed power, its move label comes
from the catalogue, and `apply_move` succeeds on it with exactly the
recorded power. -/
lemma rank_moves_ok_mem {inp : MPInputs} {priors : Option PriorsTable}
    {out : List RankedCand} (h : rank_moves inp priors = .ok out)
    {c : RankedCand} (hc : c ∈ out) :
    compute_mp inp = .ok c.base_mp ∧ c.abs_drop = c.base_mp - c.new_mp ∧
    c.move ∈ candidate_moves inp ∧ ∃ j, apply_move inp c.move = .ok (c.new_mp, j) := by
  unfold rank_moves at h
  cases hcm : compute_mp inp with
  | error e => rw [hcm] at h; cases h
  | ok b =>
    rw [hcm] at h
    injection h with h
    subst h
    rw [rankFrom, mem_sortDesc] at hc
    obtain ⟨m, hm, hev⟩ := List.mem_filterMap.1 hc
    unfold evalCandidate at hev
    cases happ : apply_move inp m with
    | error e => rw [happ] at hev; cases hev
    | ok p =>
      rw [happ] at hev
      injection hev with hev
      subst hev
      exact ⟨rfl, rfl, hm, p.2, by rw [happ]⟩

/-- If `apply_move` succeeds, the commit block of `greedy_plan` performs
the same state change, and the recorded power is the recomputation on that
state. -/
lemma apply_move_commit {cur : MPInputs} {m : String} {mp : ℚ} {j : MPInputs}
    (h : apply_move cur m = .ok (mp, j)) :
    greedyCommit cur m = some j ∧ compute_mp j = .ok mp := by
  by_cases h1 : m = "RR -2"
  · rw [apply_move, if_pos h1] at h
    rw [greedyCommit, if_pos h1]
    obtain ⟨a, ha, hb⟩ := except_map_ok.1 h
    injection hb with hb1 hb2
    subst hb1; subst hb2
    exact ⟨rfl, ha⟩
  · by_cases h2 : m = "PEEP -1"
    · rw [apply_move, if_neg h1, if_pos h2] at h
      rw [greedyCommit, if_neg h1, if_pos h2]
      obtain ⟨a, ha, hb⟩ := except_map_ok.1 h
      injection hb with hb1 hb2
      subst hb1; subst hb2
      exact ⟨rfl, ha⟩
    · by_cases h3 : m = "VT -50"
      · rw [apply_move, if_neg h1, if_neg h2, if_pos h3] at h
        rw [greedyCommit, if_neg h1, if_neg h2, if_pos h3]
        obtain ⟨a, ha, hb⟩ := except_map_ok.1 h
        injection hb with hb1 hb2
        subst hb1; subst hb2
        exact ⟨rfl, ha⟩
      · by_cases h4 : m = "ΔPinsp -2"
        · rw [apply_move, if_neg h1, if_neg h2, if_neg h3, if_pos h4] at h
          rw [greedyCommit, if_neg h1, if_neg h2, if_neg h3, if_pos h4]
          cases hd : cur.delta_pinsp with
          | some d =>
            rw [hd] at h
            obtain ⟨a, ha, hb⟩ := except_map_ok.1 h
            injection hb with hb1 hb2
            subst hb1; subst hb2
            exact ⟨rfl, ha⟩
          | none =>
            rw [hd] at h
            cases hp : cur.pip with
            | some p =>
              rw [hp] at h
              obtain ⟨a, ha, hb⟩ := except_map_ok.1 h
              injection hb with hb1 hb2
              subst hb1; subst hb2
              exact ⟨rfl, ha⟩
            | none => rw [hp] at h; cases h
        · rw [apply_move, if_neg h1, if_neg h2, if_neg h3, if_neg h4] at h
          cases h

/-- Invariant of the `greedy_plan` loop: a successful run of `n` budgeted
steps produces at most `n` committed candidates, the first one records the
working state's own power as its baseline, and the power values chained
along the plan never increase. -/
lemma greedyLoop_spec (priors : Option PriorsTable) :
    ∀ (n : Nat) (cur : MPInputs) (plan : List RankedCand),
      greedyLoop priors n cur = .ok plan →
      plan.length ≤ n ∧
      (∀ p ps, plan = p :: ps → compute_mp cur = .ok p.base_mp) ∧
      List.Chain' (fun a b => b ≤ a) (mpSeq plan) := by
  intro n
  induction n with
  | zero =>
    intro cur plan h
    rw [greedyLoop] at h
    injection h with h
    subst h
    simp [mpSeq]
  | succ n ih =>
    intro cur plan h
    rw [greedyLoop] at h
    cases hr : rank_moves cur priors with
    | error e => rw [hr] at h; cases h
    | ok l =>
      rw [hr] at h
      cases l with
      | nil =>
        dsimp only at h
        injection h with h
        subst h
        simp [mpSeq]
      | cons best rest =>
        dsimp only at h
        by_cases hd : best.abs_drop ≤ 0
        · rw [if_pos hd] at h
          injection h with h
          subst h
          simp [mpSeq]
        · rw [if_neg hd] at h
          cases hcmt : greedyCommit cur best.move with
          | none =>
            rw [hcmt] at h
            dsimp only at h
            injection h with h
            subst h
            simp [mpSeq]
          | some cur2 =>
            rw [hcmt] at h
            dsimp only at h
            cases hrec : greedyLoop priors n cur2 with
            | error e => rw [hrec] at h; dsimp only at h; cases h
            | ok rest2 =>
              rw [hrec] at h
              dsimp only at h
              injection h with h
              subst h
              obtain ⟨hbase, hdrop, _, j, happ⟩ :=
                rank_moves_ok_mem hr (List.mem_cons_self best rest)
              obtain ⟨hcmt2, hmpj⟩ := apply_move_commit happ
              rw [hcmt] at hcmt2
              injection hcmt2 with hcmt2
              subst hcmt2
              obtain ⟨ihlen, ihbase, ihchain⟩ := ih cur2 rest2 hrec
              have hlt : best.new_mp < best.base_mp := by
                have : 0 < best.abs_drop := lt_of_not_le hd
                rw [hdrop] at this
                linarith
              refine ⟨by simpa using Nat.succ_le_succ ihlen, ?_, ?_⟩
              · intro p ps hpp
                injection hpp with hpp1 hpp2
                subst hpp1
                exact hbase
              · cases rest2 with
                | nil =>
                  simp [mpSeq, List.chain'_cons]
                  exact le_of_lt hlt
                | cons q qs =>
                  have hq : compute_mp cur2 = .ok q.base_mp :=
                    ihbase q qs rfl
                  rw [hmpj] at hq
                  injection hq with hq
                  simp only [mpSeq, List.map_cons] at ihchain ⊢
                  rw [← hq] at ihchain
                  exact List.chain'_cons.2 ⟨le_of_lt hlt, ihchain⟩

/-- Exact characterisation of when `VT -50` is in the move catalogue:
VolumeControl mode, resulting VT strictly above the 150 mL floor, and the
VT/PBW floor respected whenever sex and height are (truthily) present with
a positive PBW. -/
lemma vt50_mem_iff (inp : MPInputs) :
    "VT -50" ∈ candidate_moves inp ↔
      pyUpper inp.mode = "VC" ∧ 150 < inp.vt_ml - 50 ∧
      (∀ s hh, inp.sex = some s → inp.height_cm = some hh → s ≠ "" → hh ≠ 0 →
        0 < pbw_kg s hh → DEFAULT_VT_MIN ≤ (inp.vt_ml - 50) / pbw_kg s hh) := by
  have hbase : "VT -50" ∉
      ((if DEFAULT_RR_MIN ≤ inp.rr_bpm - 2 then ["RR -2"] else []) ++
       (if DEFAULT_PEEP_MIN ≤ inp.peep - 1 then ["PEEP -1"] else [])) := by
    intro hmem
    rcases List.mem_append.1 hmem with hx | hx
    · split at hx
      · exact strVTneRR (List.mem_singleton.1 hx)
      · cases hx
    · split at hx
      · exact strVTnePE (List.mem_singleton.1 hx)
      · cases hx
  unfold candidate_moves
  dsimp only
  by_cases hm : pyUpper inp.mode = "VC"
  · rw [if_pos hm, List.mem_append]
    constructor
    · rintro (hx | hok)
      · exact absurd hx hbase
      · by_cases hf : inp.vt_ml - 50 ≤ 150
        · rw [if_pos hf] at hok
          simp at hok
        · rw [if_neg hf] at hok
          refine ⟨hm, not_le.1 hf, ?_⟩
          intro s hh hs hhh hsne hhne hpos
          rw [hs, hhh] at hok
          dsimp only at hok
          by_cases hz : s = "" ∨ hh = 0
          · rcases hz with hz | hz
            · exact absurd hz hsne
            · exact absurd hz hhne
          · rw [if_neg hz] at hok
            by_cases hcond : 0 < pbw_kg s hh ∧ (inp.vt_ml - 50) / pbw_kg s hh < DEFAULT_VT_MIN
            · rw [if_pos hcond] at hok
              simp at hok
            · exact not_lt.1 (not_and.1 hcond hpos)
    · rintro ⟨-, hf, hguard⟩
      right
      have hok : (if inp.vt_ml - 50 ≤ 150 then false
          else
            match inp.sex, inp.height_cm with
            | some s, some h =>
              if s = "" ∨ h = 0 then true
              else if 0 < pbw_kg s h ∧ (inp.vt_ml - 50) / pbw_kg s h < DEFAULT_VT_MIN then false
              else true
            | _, _ => true) = true := by
        rw [if_neg (not_le.2 hf)]
        cases hsex : inp.sex with
        | none => rfl
        | some s =>
          cases hh : inp.height_cm with
          | none => rfl
          | some h =>
            dsimp only
            by_cases hz : s = "" ∨ h = 0
            · rw [if_pos hz]
            · rw [if_neg hz]
              push_neg at hz
              rw [if_neg ?_]
              rintro ⟨hpos, hlt⟩
              exact absurd hlt (not_lt.2 (hguard s h hsex hh hz.1 hz.2 hpos))
      rw [hok]
      exact List.mem_singleton.2 rfl
  · rw [if_neg hm]
    constructor
    · intro hx
      exfalso
      rcases List.mem_append.1 hx with hx | hx
      · exact hbase hx
      · cases hdp : inp.delta_pinsp with
        | some d =>
          rw [hdp] at hx
          dsimp only at hx
          split at hx
          · exact strVTneDP (List.mem_singleton.1 hx)
          · cases hx
        | none =>
          cases hpip : inp.pip with
          | some p =>
            rw [hdp, hpip] at hx
            dsimp only at hx
            split at hx
            · exact strVTneDP (List.mem_singleton.1 hx)
            · cases hx
          | none =>
            rw [hdp, hpip] at hx
            cases hx
    · rintro ⟨h1, -, -⟩
      exact absurd h1 hm

/-! Heap-preservation lemmas: every store cell below a bound that is also
below every written location is untouched. -/

/-- All cells below `n` agree between `h` and `h2`, and `h2` is at least as
long. -/
def presBelow (n : Nat) (h h2 : Heap) : Prop :=
  n ≤ h2.length ∧ ∀ j, j < n → h2.get? j = h.get? j

lemma presBelow_trans {n : Nat} {h1 h2 h3 : Heap}
    (a : presBelow n h1 h2) (b : presBelow n h2 h3) : presBelow n h1 h3 :=
  ⟨b.1, fun j hj => (b.2 j hj).trans (a.2 j hj)⟩

lemma presBelow_refl {n : Nat} {h : Heap} (hn : n ≤ h.length) : presBelow n h h :=
  ⟨hn, fun _ _ => rfl⟩

lemma presBelow_append {n : Nat} {h : Heap} {x : MPInputs} (hn : n ≤ h.length) :
    presBelow n h (h ++ [x]) := by
  refine ⟨by simp; omega, fun j hj => ?_⟩
  exact List.get?_append (lt_of_lt_of_le hj hn)

lemma presBelow_set {n : Nat} {h : Heap} {k : Nat} {v : MPInputs}
    (hk : n ≤ k) (hn : n ≤ h.length) : presBelow n h (h.set k v) := by
  refine ⟨by simpa [List.length_set] using hn, fun j hj => ?_⟩
  have hkj : k ≠ j := by omega
  exact List.get?_set_ne v h hkj

lemma applyMoveH_pres {h : Heap} {i : Nat} {m : String} {n : Nat}
    (hn : n ≤ h.length) : presBelow n h (applyMoveH h i m).1 := by
  have happ : presBelow n h (h ++ [h.getD i default]) := presBelow_append hn
  have hset : ∀ v : MPInputs,
      presBelow n h ((h ++ [h.getD i default]).set h.length v) :=
    fun v => presBelow_trans happ (presBelow_set hn happ.1)
  unfold applyMoveH
  dsimp only
  split_ifs
  · exact hset _
  · exact hset _
  · exact hset _
  · cases (h.getD i default).delta_pinsp with
    | some d => exact hset _
    | none =>
      cases (h.getD i default).pip with
      | some p => exact hset _
      | none => exact happ
  · exact happ

lemma foldl_rankStepH_pres (i : Nat) (priors : Option PriorsTable) (mode : String) (b : ℚ) :
    ∀ (ms : List String) (acc : Heap × List RankedCand) (n : Nat), n ≤ acc.1.length →
      presBelow n acc.1 ((ms.foldl (rankStepH i priors mode b) acc).1) := by
  intro ms
  induction ms with
  | nil => intro acc n hn; exact presBelow_refl hn
  | cons m ms ih =>
    intro acc n hn
    rw [List.foldl_cons]
    have hstep : presBelow n acc.1 ((rankStepH i priors mode b acc m).1) := by
      unfold rankStepH
      cases happ : applyMoveH acc.1 i m with
      | mk h2 r =>
        have h2eq : h2 = (applyMoveH acc.1 i m).1 := by rw [happ]
        cases r with
        | error e => dsimp only; rw [h2eq]; exact applyMoveH_pres hn
        | ok p => dsimp only; rw [h2eq]; exact applyMoveH_pres hn
    exact presBelow_trans hstep (ih _ n hstep.1)

lemma rankMovesH_pres (h : Heap) (i : Nat) (priors : Option PriorsTable) {n : Nat}
    (hn : n ≤ h.length) : presBelow n h (rankMovesH h i priors).1 := by
  unfold rankMovesH
  dsimp only
  cases compute_mp (h.getD i default) with
  | error e => exact presBelow_refl hn
  | ok b => exact foldl_rankStepH_pres i priors (pyUpper (h.getD i default).mode) b _ (h, []) n hn

lemma greedyLoopH_pres (priors : Option PriorsTable) :
    ∀ (steps : Nat) (h : Heap) (curloc n : Nat),
      n ≤ h.length → n ≤ curloc →
      presBelow n h (greedyLoopH priors steps h curloc).1 := by
  intro steps
  induction steps with
  | zero => intro h c n hn _; exact presBelow_refl hn
  | succ k ih =>
    intro h curloc n hn hc
    rw [greedyLoopH]
    cases hrm : rankMovesH h curloc priors with
    | mk h2 r =>
      have hp2 : presBelow n h h2 := by
        have := rankMovesH_pres h curloc priors hn
        rwa [hrm] at this
      cases r with
      | error e => exact hp2
      | ok l =>
        cases l with
        | nil => exact hp2
        | cons best rest =>
          dsimp only
          by_cases hd : best.abs_drop ≤ 0
          · rw [if_pos hd]
            exact hp2
          · rw [if_neg hd]
            cases greedyCommit (h2.getD curloc default) best.move with
            | none => exact hp2
            | some cur2 =>
              dsimp only
              have hp3 : presBelow n h2 (h2.set curloc cur2) := presBelow_set hc hp2.1
              have hrecp : presBelow n (h2.set curloc cur2)
                  (greedyLoopH priors k (h2.set curloc cur2) curloc).1 :=
                ih (h2.set curloc cur2) curloc n hp3.1 hc
              cases hrec : greedyLoopH priors k (h2.set curloc cur2) curloc with
              | mk h4 r2 =>
                rw [hrec] at hrecp
                cases r2 with
                | error e => dsimp only; exact presBelow_trans hp2 (presBelow_trans hp3 hrecp)
                | ok rest2 => dsimp only; exact presBelow_trans hp2 (presBelow_trans hp3 hrecp)

/-- Removing a candidate label on which the per-candidate evaluation fails
does not change the evaluated list: the failure was already dropped. -/
lemma filterMap_erase_none {f : String → Option RankedCand} {m : String}
    (hf : f m = none) : ∀ l : List String, (l.erase m).filterMap f = l.filterMap f := by
  intro l
  induction l with
  | nil => rfl
  | cons a as ih =>
    by_cases ha : a = m
    · subst ha
      rw [List.erase_cons_head, List.filterMap_cons, hf]
    · rw [List.erase_cons_tail (by simpa using ha), List.filterMap_cons, List.filterMap_cons, ih]

/-! Concrete inputs used by counterexamples and witnesses. -/

/-- VC setting whose `RR -2` and `PEEP -1` moves drop MP by exactly the
same amount. -/
def c1inp : MPInputs :=
  { mode := "VC", rr_bpm := 20, vt_ml := 100, peep := 6, pplat := some 10, ppeak := some 7 }

/-- Priors giving `PEEP -1` a large `mean_abs_drop` and `RR -2` none. -/
def c1priors : PriorsTable := [("VC", [("PEEP -1", 100)])]

/-- The `RR -2` candidate `rank_moves` produces on `c1inp`. -/
def c1rr : RankedCand := ⟨"RR -2", 49 / 50, 441 / 500, 49 / 500, none⟩

/-- The `PEEP -1` candidate `rank_moves` produces on `c1inp`. -/
def c1pe : RankedCand := ⟨"PEEP -1", 49 / 50, 441 / 500, 49 / 500, some 100⟩

/-- C1: code_bug evidence.  On `c1inp` with `c1priors`, the two returned
candidates have exactly equal `abs_drop`, the spec's prior-nudged score
strictly prefers `PEEP -1`, yet `rank_moves` returns `RR -2` first: the
`score` variable of the source is computed but never used by the sort, so
ties are broken by catalogue order, not by the nudged score. -/
theorem rank_moves_ignores_prior_score :
    rank_moves c1inp (some c1priors) = Except.ok [c1rr, c1pe] ∧
    c1rr.abs_drop = c1pe.abs_drop ∧ scoreOf c1rr < scoreOf c1pe ∧
    c1rr.move = "RR -2" ∧ c1pe.move = "PEEP -1" := by
  refine ⟨?_, by norm_num [c1rr, c1pe], by norm_num [scoreOf, c1rr, c1pe], rfl, rfl⟩
  norm_num [rank_moves, rankFrom, evalCandidate, apply_move, compute_mp, candidate_moves,
    c1inp, c1priors, c1rr, c1pe, vc_mp_simplified, K, Except.map, strVCtrim, strVCup,
    strPEneRR, strRRnePE, DEFAULT_RR_MIN, DEFAULT_PEEP_MIN, max_def,
    lookupPrior, lookupStr, List.filterMap, sortDesc, insertDesc]

/-- VC setting with `rr_bpm = 0` but complete pressures. -/
def c4inp : MPInputs :=
  { mode := "VC", rr_bpm := 0, vt_ml := 400, peep := 5, pplat := some 20, ppeak := some 25 }

/-- C4 (counterexample): `compute_mp` performs no `rr_bpm` validation —
on an input with `rr_bpm = 0 ≤ 0` and full pressures it returns the number
`0` instead of failing with `InvalidInput`. -/
theorem compute_mp_rr_nonpositive_cex :
    c4inp.rr_bpm ≤ 0 ∧ compute_mp c4inp = Except.ok 0 := by
  constructor
  · norm_num [c4inp]
  · norm_num [compute_mp, c4inp, vc_mp_simplified, K, Except.map, strVCtrim]

/-- C4 (amended): `compute_mp` never checks `rr_bpm`.  For every VC input
with `rr_bpm ≤ 0` whose plateau pressure is supplied, it succeeds and
returns the formula value `K·RR·VT_L·(Ppeak_used − ½(Pplat − PEEP))`. -/
theorem compute_mp_no_rr_check (inp : MPInputs) (pl : ℚ)
    (hmode : pyUpper (pyStrip inp.mode) = "VC") (hrr : inp.rr_bpm ≤ 0)
    (hpl : inp.pplat = some pl) :
    compute_mp inp = Except.ok (K * inp.rr_bpm * (inp.vt_ml / 1000) *
      (inp.ppeak.getD (pl + 5) - (1 / 2) * (pl - inp.peep))) := by
  rw [compute_mp]
  rw [hmode, if_pos rfl]
  cases hpk : inp.ppeak with
  | none => simp [vc_mp_simplified, hpl, hpk, Except.map, Option.getD]
  | some pk => simp [vc_mp_simplified, hpl, hpk, Except.map, Option.getD]

/-- C4 witness: the amended theorem applied at `c4inp`. -/
theorem compute_mp_no_rr_check_witness :
    compute_mp c4inp = Except.ok (K * c4inp.rr_bpm * (c4inp.vt_ml / 1000) *
      (c4inp.ppeak.getD (20 + 5) - (1 / 2) * (20 - c4inp.peep))) :=
  compute_mp_no_rr_check c4inp 20 (by decide) (by norm_num [c4inp]) rfl

/-- The spec's PC scenario: RR=18, VT=420 mL, PEEP=8, ΔPinsp=18. -/
def pcScenario : MPInputs :=
  { mode := "PC", rr_bpm := 18, vt_ml := 420, peep := 8, delta_pinsp := some 18 }

/-- C5 (counterexample): the streamlit variant `mp_pc_prvc` does not
satisfy the claimed formula — at the spec's own scenario it returns
`K·18·0.42·(8 + ½·18) = 12.59496`, not `K·18·0.42·(8+18) = 19.26288`. -/
theorem mp_pc_prvc_scenario_cex :
    (mp_pc_prvc 18 420 8 none none (some 18)).1 = some (157437 / 12500) ∧
    K * 18 * (420 / 1000) * (8 + 18) = (120393 / 6250 : ℚ) ∧
    (157437 / 12500 : ℚ) ≠ 120393 / 6250 := by
  refine ⟨?_, by norm_num [K], by norm_num⟩
  norm_num [mp_pc_prvc, K, max_def]

/-- C5 (amended): the `mp_calc.py` engine (`compute_mp` via
`pc_mp_simplified`) does return `K·RR·VT_L·(PEEP + ΔPinsp)` whenever
`delta_pinsp` is known — `19.26288 ≈ 19.25` at the spec's scenario — but
the streamlit variant `mp_pc_prvc` instead returns
`K·RR·VT_L·(PEEP + ½·max(ΔPinsp,0))`, i.e. `12.59496` there. -/
theorem pc_engine_formula :
    (∀ (rr vt peep d : ℚ) (pip : Option ℚ),
      pc_mp_simplified rr vt peep (some d) pip =
        Except.ok ⟨K * rr * (vt / 1000) * (peep + d), d, false⟩) ∧
    compute_mp pcScenario = Except.ok (120393 / 6250) ∧
    (mp_pc_prvc 18 420 8 none none (some 18)).1 = some (157437 / 12500) := by
  refine ⟨fun rr vt peep d pip => rfl, ?_, ?_⟩
  · norm_num [compute_mp, pcScenario, pc_mp_simplified, K, Except.map, strPCtrim, strPCneVC]
  · norm_num [mp_pc_prvc, K, max_def]

/-- VC setting whose `VT -50` move lands exactly on the 150 mL floor. -/
def c6inp : MPInputs := { mode := "VC", rr_bpm := 20, vt_ml := 200, peep := 10 }

/-- C6 (counterexample): with `vt_ml = 200` the resulting VT is exactly
150 ≥ 150 and PBW is unknown, so the claim says `VT -50` is offered; the
code's test `vt_ml - 50 <= 150` excludes it. -/
theorem vt50_floor_boundary_cex :
    c6inp.vt_ml - 50 = 150 ∧ c6inp.sex = none ∧ "VT -50" ∉ candidate_moves c6inp := by
  refine ⟨by norm_num [c6inp], rfl, ?_⟩
  intro hmem
  have h150 := ((vt50_mem_iff c6inp).1 hmem).2.1
  rw [show c6inp.vt_ml = 200 from rfl] at h150
  norm_num at h150

/-- C6 (amended): for a VolumeControl setting the catalogue contains
`VT -50` iff the resulting VT is strictly above the 150 mL floor and,
whenever sex and height are truthily present with positive PBW, the
resulting VT/PBW stays at or above `vt_min`. -/
theorem vt50_in_catalogue_iff (inp : MPInputs) (hmode : pyUpper inp.mode = "VC") :
    "VT -50" ∈ candidate_moves inp ↔
      (150 < inp.vt_ml - 50 ∧
       (∀ s hh, inp.sex = some s → inp.height_cm = some hh → s ≠ "" → hh ≠ 0 →
         0 < pbw_kg s hh → DEFAULT_VT_MIN ≤ (inp.vt_ml - 50) / pbw_kg s hh)) := by
  rw [vt50_mem_iff]
  exact ⟨fun h => ⟨h.2.1, h.2.2⟩, fun h => ⟨hmode, h.1, h.2⟩⟩

/-- C6 witness: the amended characterisation at a concrete VC setting
where `VT -50` is offered. -/
theorem vt50_in_catalogue_iff_witness :
    "VT -50" ∈ candidate_moves c1inp ↔
      (150 < c1inp.vt_ml - 50 ∧
       (∀ s hh, c1inp.sex = some s → c1inp.height_cm = some hh → s ≠ "" → hh ≠ 0 →
         0 < pbw_kg s hh → DEFAULT_VT_MIN ≤ (c1inp.vt_ml - 50) / pbw_kg s hh)) :=
  vt50_in_catalogue_iff c1inp (by decide)

/-- C7 (counterexample): with `pplat` absent and `cstat = −1` (present,
nonzero, but not `> 0`), the estimator still fires the fallback — it
derives `pplat = 0.4/(−1) + 5 = 4.6`, then `ppeak = 9.6`, and returns a
power instead of refusing to assume a value. -/
theorem cstat_negative_fallback_cex :
    ¬((0 : ℚ) < -1) ∧
    vc_mp_simplified 20 400 5 none none (some (-1)) =
      Except.ok ⟨4802 / 625, 23 / 5, 48 / 5, true, true⟩ := by
  refine ⟨by norm_num, ?_⟩
  norm_num [vc_mp_simplified, K]

/-- C7 (amended): the Pplat fallback of `vc_mp_simplified` fires exactly
when `pplat` is absent and `cstat` is present and nonzero (negative
values included), giving `pplat = vt_L/cstat + peep` and, when `ppeak` is
also absent, `ppeak = pplat + 5`; with `cstat` absent or zero the
function fails with the missing-Pplat error; when `pplat` is supplied the
fallback never fires. -/
theorem vc_fallback_rules (rr vt peep : ℚ) (ppeak : Option ℚ) (c : ℚ) (hc : c ≠ 0) :
    vc_mp_simplified rr vt peep none ppeak (some c) =
      Except.ok ⟨K * rr * (vt / 1000) *
          (ppeak.getD (vt / 1000 / c + peep + 5) -
            (1 / 2) * (vt / 1000 / c + peep - peep)),
        vt / 1000 / c + peep, ppeak.getD (vt / 1000 / c + peep + 5),
        true, ppeak.isNone⟩ ∧
    vc_mp_simplified rr vt peep none ppeak none = Except.error VentError.vcNeedsPplat ∧
    vc_mp_simplified rr vt peep none ppeak (some 0) = Except.error VentError.vcNeedsPplat ∧
    (∀ pl0, (vc_mp_simplified rr vt peep (some pl0) ppeak (some c)).map
      (fun r => r.pplat_from_cstat) = Except.ok false) := by
  refine ⟨?_, ?_, ?_, ?_⟩
  · rw [vc_mp_simplified]
    dsimp only
    rw [if_neg hc]
    cases ppeak with
    | none => simp [Option.getD, Option.isNone]
    | some pk => simp [Option.getD, Option.isNone]
  · cases ppeak <;> rfl
  · cases ppeak <;> rfl
  · intro pl0
    cases ppeak <;> rfl

/-- C7 witness: the amended rules applied at the counterexample's input. -/
theorem vc_fallback_rules_witness :
    vc_mp_simplified 20 400 5 none none (some (-1)) =
      Except.ok ⟨K * 20 * (400 / 1000) *
          ((none : Option ℚ).getD (400 / 1000 / (-1) + 5 + 5) -
            (1 / 2) * (400 / 1000 / (-1) + 5 - 5)),
        400 / 1000 / (-1) + 5, (none : Option ℚ).getD (400 / 1000 / (-1) + 5 + 5),
        true, (none : Option ℚ).isNone⟩ :=
  (vc_fallback_rules 20 400 5 none (-1) (by norm_num)).1

/-- VC input with inverted pressures (`ppeak < pplat`). -/
def c9a : MPInputs :=
  { mode := "VC", rr_bpm := 10, vt_ml := 400, peep := 0, pplat := some 30, ppeak := some 5 }

/-- `c9a` with a higher respiratory rate. -/
def c9b : MPInputs := { c9a with rr_bpm := 12 }

/-- C9 (counterexample): on a VC input with `ppeak = 5 < pplat = 30` the
driving term is negative, so raising RR from 10 to 12 strictly decreases
the computed MP — the claimed monotonicity fails as stated. -/
theorem vc_mp_not_monotone_cex :
    compute_mp c9a = Except.ok (-98 / 25) ∧
    compute_mp c9b = Except.ok (-588 / 125) ∧
    c9a.rr_bpm < c9b.rr_bpm ∧ (-588 / 125 : ℚ) < -98 / 25 := by
  refine ⟨?_, ?_, by norm_num [c9a, c9b], by norm_num⟩
  · norm_num [compute_mp, c9a, vc_mp_simplified, K, Except.map, strVCtrim]
  · norm_num [compute_mp, c9b, c9a, vc_mp_simplified, K, Except.map, strVCtrim]

/-- Plain equation for `vcMP`. -/
lemma vcMP_eq (rr vt peep pl pk : ℚ) :
    vcMP rr vt peep pl pk = K * rr * (vt / 1000) * (pk - (1 / 2) * (pl - peep)) := rfl

/-- C9 (amended): on VC inputs with both pressures supplied and the
physical ordering `0 ≤ PEEP ≤ Pplat ≤ Ppeak` (which makes the driving
term non-negative), MP is monotone non-decreasing in RR, VT and Ppeak
separately. -/
theorem vc_mp_monotone (rr rr2 vt vt2 peep pl pk pk2 : ℚ)
    (hpe : 0 ≤ peep) (hpl : peep ≤ pl) (hpk : pl ≤ pk)
    (hr : 0 ≤ rr) (hv : 0 ≤ vt)
    (hrr : rr ≤ rr2) (hvv : vt ≤ vt2) (hkk : pk ≤ pk2) :
    vcMP rr vt peep pl pk ≤ vcMP rr2 vt peep pl pk ∧
    vcMP rr vt peep pl pk ≤ vcMP rr vt2 peep pl pk ∧
    vcMP rr vt peep pl pk ≤ vcMP rr vt peep pl pk2 := by
  have hK : (0 : ℚ) ≤ K := by norm_num [K]
  have ht : (0 : ℚ) ≤ pk - (1 / 2) * (pl - peep) := by linarith
  have hv1000 : (0 : ℚ) ≤ vt / 1000 := by positivity
  refine ⟨?_, ?_, ?_⟩
  · rw [vcMP_eq, vcMP_eq]
    exact mul_le_mul_of_nonneg_right
      (mul_le_mul_of_nonneg_right (mul_le_mul_of_nonneg_left hrr hK) hv1000) ht
  · rw [vcMP_eq, vcMP_eq]
    have hdiv : vt / 1000 ≤ vt2 / 1000 := by linarith
    exact mul_le_mul_of_nonneg_right
      (mul_le_mul_of_nonneg_left hdiv (mul_nonneg hK hr)) ht
  · rw [vcMP_eq, vcMP_eq]
    have htt : pk - (1 / 2) * (pl - peep) ≤ pk2 - (1 / 2) * (pl - peep) := by linarith
    exact mul_le_mul_of_nonneg_left htt
      (mul_nonneg (mul_nonneg hK hr) hv1000)

/-- C9 witness: the amended monotonicity at RR 18≤20, VT 420≤500,
Ppeak 31≤33 with PEEP=8, Pplat=26. -/
theorem vc_mp_monotone_witness :
    vcMP 18 420 8 26 31 ≤ vcMP 20 420 8 26 31 ∧
    vcMP 18 420 8 26 31 ≤ vcMP 18 500 8 26 31 ∧
    vcMP 18 420 8 26 31 ≤ vcMP 18 420 8 26 33 :=
  vc_mp_monotone 18 20 420 500 8 26 31 33 (by norm_num) (by norm_num) (by norm_num)
    (by norm_num) (by norm_num) (by norm_num) (by norm_num) (by norm_num)

/-- VC setting with `rr_bpm = 40`, far above `rr_max = 35`. -/
def c2inp : MPInputs :=
  { mode := "VC", rr_bpm := 40, vt_ml := 100, peep := 5, pplat := some 20, ppeak := some 25 }

/-- The single candidate `rank_moves` returns on `c2inp`. -/
def c2cand : RankedCand := ⟨"RR -2", 343 / 50, 6517 / 1000, 343 / 1000, none⟩

/-- The resulting setting of that candidate: `rr_bpm = 38 > 35`. -/
def c2state : MPInputs := { c2inp with rr_bpm := 38 }

/-- C2 (counterexample): `rank_moves` happily returns the `RR -2`
candidate whose resulting setting has `rr_bpm = 38`, above the
`rr_max = 35` guardrail — only the lower bound of the changed field is
ever checked. -/
theorem rank_moves_upper_rail_cex :
    rank_moves c2inp none = Except.ok [c2cand] ∧
    apply_move c2inp "RR -2" = Except.ok (6517 / 1000, c2state) ∧
    DEFAULT_RR_MAX < c2state.rr_bpm := by
  refine ⟨?_, ?_, by norm_num [DEFAULT_RR_MAX, c2state, c2inp]⟩
  · norm_num [rank_moves, rankFrom, evalCandidate, apply_move, compute_mp, candidate_moves,
      c2inp, c2cand, vc_mp_simplified, K, Except.map, strVCtrim, strVCup,
      DEFAULT_RR_MIN, DEFAULT_PEEP_MIN, max_def,
      lookupPrior, lookupStr, List.filterMap, sortDesc, insertDesc]
  · norm_num [apply_move, compute_mp, c2inp, c2state, vc_mp_simplified, K, Except.map,
      strVCtrim, DEFAULT_RR_MIN, max_def]

/-- C2 (amended): every candidate returned by `rank_moves` respects the
*lower* rail of its changed field — `RR -2` keeps `rr ≥ rr_min`,
`PEEP -1` keeps `peep ≥ peep_min`, `VT -50` keeps VT strictly above the
150 mL floor and VT/PBW at or above `vt_min` when PBW is truthily known
and positive, and `ΔPinsp -2` clamps the pressure at its floor.  Upper
bounds are not enforced. -/
theorem rank_moves_lower_rails (inp : MPInputs) (priors : Option PriorsTable)
    (out : List RankedCand) (c : RankedCand) (mp : ℚ) (j : MPInputs)
    (hrank : rank_moves inp priors = Except.ok out) (hc : c ∈ out)
    (happ : apply_move inp c.move = Except.ok (mp, j)) :
    (c.move = "RR -2" → DEFAULT_RR_MIN ≤ j.rr_bpm) ∧
    (c.move = "PEEP -1" → DEFAULT_PEEP_MIN ≤ j.peep) ∧
    (c.move = "VT -50" → 150 < j.vt_ml ∧
      (∀ s hh, inp.sex = some s → inp.height_cm = some hh → s ≠ "" → hh ≠ 0 →
        0 < pbw_kg s hh → DEFAULT_VT_MIN ≤ j.vt_ml / pbw_kg s hh)) ∧
    (c.move = "ΔPinsp -2" →
      (∀ d0, inp.delta_pinsp = some d0 → ∃ d2, j.delta_pinsp = some d2 ∧ 0 ≤ d2) ∧
      (inp.delta_pinsp = none → ∀ p0, inp.pip = some p0 →
        ∃ p2, j.pip = some p2 ∧ inp.peep ≤ p2)) := by
  obtain ⟨-, -, hmem, -⟩ := rank_moves_ok_mem hrank hc
  refine ⟨?_, ?_, ?_, ?_⟩
  · intro he
    rw [he, apply_move, if_pos rfl] at happ
    obtain ⟨a, ha, hb⟩ := except_map_ok.1 happ
    injection hb with hb1 hb2
    subst hb2
    exact le_max_left _ _
  · intro he
    rw [he, apply_move, if_neg strPEneRR, if_pos rfl] at happ
    obtain ⟨a, ha, hb⟩ := except_map_ok.1 happ
    injection hb with hb1 hb2
    subst hb2
    exact le_max_left _ _
  · intro he
    rw [he] at hmem happ
    have hvt := (vt50_mem_iff inp).1 hmem
    rw [apply_move, if_neg strVTneRR, if_neg strVTnePE, if_pos rfl] at happ
    obtain ⟨a, ha, hb⟩ := except_map_ok.1 happ
    injection hb with hb1 hb2
    subst hb2
    have h0 : (0 : ℚ) ≤ inp.vt_ml - 50 := le_of_lt (lt_trans (by norm_num) hvt.2.1)
    constructor
    · show (150 : ℚ) < max 0 (inp.vt_ml - 50)
      rw [max_eq_right h0]
      exact hvt.2.1
    · intro s hh hs hhh hsne hhne hpos
      show DEFAULT_VT_MIN ≤ max 0 (inp.vt_ml - 50) / pbw_kg s hh
      rw [max_eq_right h0]
      exact hvt.2.2 s hh hs hhh hsne hhne hpos
  · intro he
    rw [he, apply_move, if_neg strDPneRR, if_neg strDPnePE, if_neg strDPneVT,
      if_pos rfl] at happ
    constructor
    · intro d0 hd0
      rw [hd0] at happ
      dsimp only at happ
      obtain ⟨a, ha, hb⟩ := except_map_ok.1 happ
      injection hb with hb1 hb2
      subst hb2
      exact ⟨max 0 (d0 - 2), rfl, le_max_left _ _⟩
    · intro hdn p0 hp0
      rw [hdn, hp0] at happ
      dsimp only at happ
      obtain ⟨a, ha, hb⟩ := except_map_ok.1 happ
      injection hb with hb1 hb2
      subst hb2
      exact ⟨max inp.peep (p0 - 2), rfl, le_max_left _ _⟩

/-- C2 witness: the amended bound applied to the `RR -2` candidate of
`c2inp`. -/
theorem rank_moves_lower_rails_witness : DEFAULT_RR_MIN ≤ c2state.rr_bpm :=
  (rank_moves_lower_rails c2inp none [c2cand] c2cand (6517 / 1000) c2state
    (by norm_num [rank_moves, rankFrom, evalCandidate, apply_move, compute_mp,
      candidate_moves, c2inp, c2cand, vc_mp_simplified, K, Except.map, strVCtrim,
      strVCup, DEFAULT_RR_MIN, DEFAULT_PEEP_MIN, max_def, lookupPrior, lookupStr,
      List.filterMap, sortDesc, insertDesc])
    (by simp)
    (by norm_num [apply_move, compute_mp, c2inp, c2cand, c2state, vc_mp_simplified, K,
      Except.map, strVCtrim, DEFAULT_RR_MIN, max_def])).1 rfl

/-- C3: `greedy_plan` with a zero step budget returns the empty plan; a
successful plan has at most `steps` entries; and the MP values along the
plan (the first step's baseline, then each committed step's new MP) are
non-increasing. -/
theorem greedy_plan_bounds (inp : MPInputs) (priors : Option PriorsTable)
    (steps : Nat) (plan : List RankedCand)
    (h : greedy_plan inp priors steps = Except.ok plan) :
    greedy_plan inp priors 0 = Except.ok [] ∧ plan.length ≤ steps ∧
    List.Chain' (fun a b => b ≤ a) (mpSeq plan) :=
  ⟨rfl, (greedyLoop_spec priors steps inp plan h).1,
    (greedyLoop_spec priors steps inp plan h).2.2⟩

/-- VC setting on which `greedy_plan` commits two `RR -2` steps. -/
def wInp : MPInputs :=
  { mode := "VC", rr_bpm := 20, vt_ml := 100, peep := 5, pplat := some 20, ppeak := some 25 }

/-- First committed step on `wInp`. -/
def w1 : RankedCand := ⟨"RR -2", 343 / 100, 3087 / 1000, 343 / 1000, none⟩

/-- Second committed step on `wInp`. -/
def w2 : RankedCand := ⟨"RR -2", 3087 / 1000, 343 / 125, 343 / 1000, none⟩

/-- C3 witness: the bounds at a concrete two-step plan. -/
theorem greedy_plan_bounds_witness :
    greedy_plan wInp none 0 = Except.ok [] ∧ ([w1, w2] : List RankedCand).length ≤ 2 ∧
    List.Chain' (fun a b => b ≤ a) (mpSeq [w1, w2]) :=
  greedy_plan_bounds wInp none 2 [w1, w2]
    (by norm_num [greedy_plan, greedyLoop, greedyCommit, rank_moves, rankFrom,
      evalCandidate, apply_move, compute_mp, candidate_moves, wInp, w1, w2,
      vc_mp_simplified, K, Except.map, strVCtrim, strVCup, DEFAULT_RR_MIN,
      DEFAULT_PEEP_MIN, max_def, lookupPrior, lookupStr, List.filterMap,
      sortDesc, insertDesc])

/-- C8: a baseline `compute_mp` failure propagates out of `rank_moves`
with the same error, while with a successful baseline the ranking always
succeeds, and any single candidate whose `apply_move` evaluation fails is
simply dropped: erasing its label from the catalogue leaves the ranked
output unchanged. -/
theorem rank_moves_error_policy (inp : MPInputs) (priors : Option PriorsTable) :
    (∀ e, compute_mp inp = Except.error e → rank_moves inp priors = Except.error e) ∧
    (∀ b, compute_mp inp = Except.ok b →
      rank_moves inp priors = Except.ok (rankFrom inp priors b (candidate_moves inp)) ∧
      ∀ m e, apply_move inp m = Except.error e →
        rankFrom inp priors b (candidate_moves inp) =
          rankFrom inp priors b ((candidate_moves inp).erase m)) := by
  constructor
  · intro e he
    rw [rank_moves, he]
  · intro b hb
    refine ⟨by rw [rank_moves, hb], ?_⟩
    intro m e hme
    have hnone : evalCandidate inp priors b m = none := by
      unfold evalCandidate
      rw [hme]
    rw [rankFrom, rankFrom]
    exact (congrArg sortDesc (filterMap_erase_none hnone (candidate_moves inp))).symm

/-- PC setting whose baseline succeeds (`MP = 4.704`). -/
def c8inp : MPInputs :=
  { mode := "PC", rr_bpm := 20, vt_ml := 400, peep := 5, delta_pinsp := some 1 }

/-- C8 witness: the policy at `c8inp`, with the unknown label "XX" whose
`apply_move` fails. -/
theorem rank_moves_error_policy_witness :
    rank_moves c8inp none = Except.ok (rankFrom c8inp none (588 / 125) (candidate_moves c8inp)) ∧
    rankFrom c8inp none (588 / 125) (candidate_moves c8inp) =
      rankFrom c8inp none (588 / 125) ((candidate_moves c8inp).erase "XX") :=
  ⟨((rank_moves_error_policy c8inp none).2 (588 / 125)
      (by norm_num [compute_mp, c8inp, pc_mp_simplified, K, Except.map, strPCtrim, strPCneVC])).1,
   ((rank_moves_error_policy c8inp none).2 (588 / 125)
      (by norm_num [compute_mp, c8inp, pc_mp_simplified, K, Except.map, strPCtrim, strPCneVC])).2
     "XX" VentError.unknownMove
     (by rw [apply_move, if_neg strXXneRR, if_neg strXXnePE, if_neg strXXneVT,
       if_neg strXXneDP])⟩

/-- C10: neither heap-level `rank_moves` nor heap-level `greedy_plan`
writes the caller's cell — after either call the object the caller passed
in is unchanged in the store (every mutation targets a freshly allocated
copy, or the planner's own working cell). -/
theorem no_caller_mutation (h : Heap) (i : Nat) (priors : Option PriorsTable)
    (steps : Nat) (hi : i < h.length) :
    (rankMovesH h i priors).1.get? i = h.get? i ∧
    (greedyPlanH h i priors steps).1.get? i = h.get? i := by
  constructor
  · exact (rankMovesH_pres h i priors hi).2 i (Nat.lt_succ_self i)
  · have h1 : presBelow (i + 1) h (h ++ [h.getD i default]) := presBelow_append hi
    have h2 : presBelow (i + 1) (h ++ [h.getD i default])
        (greedyLoopH priors steps (h ++ [h.getD i default]) h.length).1 :=
      greedyLoopH_pres priors steps _ h.length (i + 1) h1.1 (by omega)
    exact (presBelow_trans h1 h2).2 i (Nat.lt_succ_self i)

/-- A one-object store holding a VC setting. -/
def c10h : Heap := [c1inp]

/-- C10 witness: the frame property at a concrete one-object store. -/
theorem no_caller_mutation_witness :
    (rankMovesH c10h 0 none).1.get? 0 = c10h.get? 0 ∧
    (greedyPlanH c10h 0 none 2).1.get? 0 = c10h.get? 0 :=
  no_caller_mutation c10h 0 none 2 (by norm_num [c10h])

end MPICU
